import Mathlib

/-!
Verification of the result-encoding pipeline of `priv/sqlite3_drv.c`
(erlang-sqlite3 driver).  The encoder `sql_exec_async` walks a prepared
statement's rows and builds a flat Erlang driver term spec (an array of
tagged machine words) which `ready_async` hands to `driver_output_term`.

The shallow embedding below mirrors the C source:
  * `Cell` models the value of one column of one row, as reported by the
    engine (`sqlite3_column_type` / `_int` / `_double` / `_blob`).
  * `Word` models one `ErlDrvTermData` entry of the flat spec array.
  * `sql_exec_async` translates the C function of the same name; the
    engine (a black box per the spec) is abstracted as the list of rows
    the step loop yields, the terminal step status, the column names,
    the statement's SQL text and the last-insert rowid.
  * `decodeTerm` gives the wire format's semantics: the documented
    reverse-Polish reduction that `driver_output_term` applies to a spec
    (values are pushed; a LIST or TUPLE marker consumes the preceding
    elements).  Claims about reply shapes are stated on the decoded term.
  * The float pool is `realloc`ed as it grows; the C stores the raw
    address `&floats[float_count - 1]` into the spec.  The allocator is
    abstracted as `fb : Nat -> Nat`, giving the pool's base address
    (in units of one double) after it has grown to `k` entries.
-/

namespace SqliteDrv

/-- Value of one result cell as reported by the engine.  `float` carries
the IEEE double opaquely (as its bit pattern); `text` and `blob` carry
the exact byte string. -/
inductive Cell where
  | int (v : Int)
  | float (bits : Int)
  | text (bytes : List Nat)
  | blob (bytes : List Nat)
  | null
deriving DecidableEq

/-- Terminal status of the step loop: `sqlite3_step` returned
`SQLITE_DONE`, `SQLITE_BUSY`, or some other non-row status whose engine
error message is `msg`. -/
inductive StepFinal where
  | done
  | busy
  | err (msg : String)
deriving DecidableEq

/-- The `ERL_DRV_*` opcodes used by the driver. -/
inductive Op where
  | ATOM
  | INT
  | FLOAT
  | STRING
  | BINARY
  | NIL
  | LIST
  | TUPLE
  | PORT
deriving DecidableEq

/-- One `ErlDrvTermData` machine word of the flat term spec: an opcode,
a numeric operand, an interned atom (`driver_mk_atom`), a port id
(`driver_mk_port`), a C string pointer with its contents, an index into
the task's binary pool (the pointer `binaries[k]`), or a raw address
into the float pool (the pointer `&floats[k]`, in double-sized units). -/
inductive Word where
  | op (o : Op)
  | num (n : Int)
  | atom (s : String)
  | portVal (p : Nat)
  | strRef (s : String)
  | binRef (idx : Nat)
  | addr (a : Nat)
deriving DecidableEq

/-- `SQLITE_DONE` completion code. -/
def SQLITE_DONE : Int := 101

/-- `sqlite3_column_int`: the engine's 64-bit integer value cast to a
32-bit C `int` (two's-complement truncation). -/
def column_int (v : Int) : Int :=
  let m := v % 4294967296
  if m < 2147483648 then m else m - 4294967296

/-- Case-insensitive prefix test on char lists; the needle is already
upper-case (helper for `strcasestr`). -/
def hasPrefixCI : List Char → List Char → Bool
  | [], _ => true
  | _ :: _, [] => false
  | p :: ps, c :: cs => p == c.toUpper && hasPrefixCI ps cs

/-- Case-insensitive substring test on char lists (`strcasestr` returning
non-NULL), needle already upper-case. -/
def containsCI (needle : List Char) : List Char → Bool
  | [] => hasPrefixCI needle []
  | c :: t => hasPrefixCI needle (c :: t) || containsCI needle t

/-- The `strcasestr(sqlite3_sql(statement), "INSERT")` test of the C. -/
def containsInsert (s : String) : Bool :=
  containsCI ['I', 'N', 'S', 'E', 'R', 'T'] s.data

/-- Mutable encoder state carried through the row loop: the float pool
counter and contents (`float_count` / `floats`) and the binary pool
counter and contents (`binaries_count` / `binaries`). -/
structure EncSt where
  floatCount : Nat
  binCount : Nat
  floats : List Int
  binaries : List (List Nat)
deriving DecidableEq

/-- Initial encoder state (all pools NULL/empty). -/
def EncSt.init : EncSt := ⟨0, 0, [], []⟩

/-- Words appended for one cell, with the updated pool state; translated
from the `switch (sqlite3_column_type(...))` in `sql_exec_async`:
integer appends `ERL_DRV_INT` with `sqlite3_column_int`; float grows the
float pool and appends `ERL_DRV_FLOAT` with the raw address
`&floats[float_count - 1]` (base given by the allocator `fb` at the new
size); text and blob copy the bytes into a fresh pool binary and append
`ERL_DRV_BINARY` referencing it; NULL appends nothing. -/
def cellWords (fb : Nat → Nat) (st : EncSt) : Cell → List Word × EncSt
  | .int v => ([.op .INT, .num (column_int v)], st)
  | .float b =>
      let k := st.floatCount + 1
      ([.op .FLOAT, .addr (fb k + (k - 1))],
       ⟨k, st.binCount, st.floats ++ [b], st.binaries⟩)
  | .text bytes =>
      let k := st.binCount + 1
      ([.op .BINARY, .binRef (k - 1), .num bytes.length, .num 0],
       ⟨st.floatCount, k, st.floats, st.binaries ++ [bytes]⟩)
  | .blob bytes =>
      let k := st.binCount + 1
      ([.op .BINARY, .binRef (k - 1), .num bytes.length, .num 0],
       ⟨st.floatCount, k, st.floats, st.binaries ++ [bytes]⟩)
  | .null => ([], st)

/-- Words appended for the cells of one row, left to right. -/
def cellsWords (fb : Nat → Nat) (st : EncSt) : List Cell → List Word × EncSt
  | [] => ([], st)
  | c :: cs =>
      let (w, st1) := cellWords fb st c
      let (w2, st2) := cellsWords fb st1 cs
      (w ++ w2, st2)

/-- Words appended for one row: the cells, then the closing
`ERL_DRV_TUPLE` with arity `column_count` (not the non-null count). -/
def rowWords (fb : Nat → Nat) (cc : Nat) (st : EncSt) (r : List Cell) :
    List Word × EncSt :=
  let (w, st1) := cellsWords fb st r
  (w ++ [.op .TUPLE, .num (cc : Int)], st1)

/-- Words appended across the whole step loop (one `rowWords` per row the
engine yields). -/
def rowsWords (fb : Nat → Nat) (cc : Nat) (st : EncSt) :
    List (List Cell) → List Word × EncSt
  | [] => ([], st)
  | r :: rs =>
      let (w, st1) := rowWords fb cc st r
      let (w2, st2) := rowsWords fb cc st1 rs
      (w ++ w2, st2)

/-- Column-name atoms: one `ERL_DRV_ATOM` pair per column. -/
def colWords : List String → List Word
  | [] => []
  | c :: cs => .op .ATOM :: .atom c :: colWords cs

/-- The 7-word error spec built by `return_error`: the 2-tuple of the
atom `error` and the C string `msg`. -/
def errorSpec (msg : String) : List Word :=
  [.op .ATOM, .atom "error", .op .STRING, .strRef msg,
   .num (msg.length : Int), .op .TUPLE, .num 2]

/-- Result of the async execution: the spec finally stored in
`async_command->dataset` (what `ready_async` outputs), the pools, and
`row_count`. -/
structure ExecOut where
  dataset : List Word
  floats : List Int
  binaries : List (List Nat)
  row_count : Nat
deriving DecidableEq

/-- Translation of `sql_exec_async`.  The spec starts with the port
(destination reference); when `column_count > 0` the columns header and
the `rows` atom follow; the step loop encodes each yielded row; then: a
busy or error completion replaces the dataset wholesale with the 7-word
error spec (the built buffer is abandoned), while a `SQLITE_DONE`
completion appends the closing envelope — for a result set the rows
list, the `rows` tuple and the 3-element outer list; otherwise the
`id`/rowid pair when the SQL text contains "INSERT" case-insensitively,
else the `ok`/`SQLITE_DONE` pair — and finally the outermost 2-tuple. -/
def sql_exec_async (fb : Nat → Nat) (p : Nat) (sql : String)
    (cols : List String) (rows : List (List Cell)) (final : StepFinal)
    (lastRowid : Int) : ExecOut :=
  let cc := cols.length
  let header : List Word := [.op .PORT, .portVal p]
  let colHdr : List Word :=
    if cc > 0 then
      [.op .ATOM, .atom "columns"] ++ colWords cols ++
      [.op .NIL, .op .LIST, .num ((cc : Int) + 1), .op .TUPLE, .num 2,
       .op .ATOM, .atom "rows"]
    else []
  let rws := (rowsWords fb cc EncSt.init rows).1
  let st := (rowsWords fb cc EncSt.init rows).2
  match final with
  | .busy =>
      ⟨errorSpec "SQLite3 database is busy", st.floats, st.binaries,
       rows.length⟩
  | .err m =>
      ⟨errorSpec m, st.floats, st.binaries, rows.length⟩
  | .done =>
      let tail : List Word :=
        if cc > 0 then
          [.op .NIL, .op .LIST, .num ((rows.length : Int) + 1),
           .op .TUPLE, .num 2, .op .NIL, .op .LIST, .num 3]
        else if containsInsert sql then
          [.op .ATOM, .atom "id", .op .INT, .num lastRowid,
           .op .TUPLE, .num 2]
        else
          [.op .ATOM, .atom "ok", .op .INT, .num SQLITE_DONE,
           .op .TUPLE, .num 2]
      ⟨header ++ colHdr ++ rws ++ tail ++ [.op .TUPLE, .num 2],
       st.floats, st.binaries, rows.length⟩

/-- Erlang term, the wire format's value domain: atoms, integers, a
float reference (carrying the raw pool address the spec slot holds),
binaries (pool index and length), C strings, ports, and list/tuple
structure. -/
inductive ETerm where
  | atom (s : String)
  | int (n : Int)
  | flt (a : Nat)
  | bin (idx : Nat) (len : Nat)
  | str (s : String)
  | port (p : Nat)
  | nil
  | cons (h t : ETerm)
  | tuple (ts : List ETerm)

/-- Proper list term from a Lean list of element terms. -/
def listOf (ts : List ETerm) : ETerm := ts.foldr .cons .nil

/-- The documented semantics of `driver_output_term`: scan the spec left
to right pushing values; `ERL_DRV_LIST n` consumes the `n` preceding
terms (the last pushed is the tail); `ERL_DRV_TUPLE n` consumes the `n`
preceding terms into a tuple.  A well-formed spec leaves exactly one
term. -/
def decodeAux : List Word → List ETerm → Option ETerm
  | [], [t] => some t
  | .op .ATOM :: .atom s :: ws, stk => decodeAux ws (.atom s :: stk)
  | .op .INT :: .num n :: ws, stk => decodeAux ws (.int n :: stk)
  | .op .PORT :: .portVal p :: ws, stk => decodeAux ws (.port p :: stk)
  | .op .FLOAT :: .addr a :: ws, stk => decodeAux ws (.flt a :: stk)
  | .op .STRING :: .strRef s :: .num _ :: ws, stk =>
      decodeAux ws (.str s :: stk)
  | .op .BINARY :: .binRef i :: .num l :: .num _ :: ws, stk =>
      decodeAux ws (.bin i l.toNat :: stk)
  | .op .NIL :: ws, stk => decodeAux ws (.nil :: stk)
  | .op .LIST :: .num n :: ws, stk =>
      let k := n.toNat
      if 1 ≤ k ∧ k ≤ stk.length then
        decodeAux ws
          ((stk.take k).tail.foldl (fun acc e => ETerm.cons e acc)
            ((stk.take k).headD .nil) :: stk.drop k)
      else none
  | .op .TUPLE :: .num n :: ws, stk =>
      let k := n.toNat
      if k ≤ stk.length then
        decodeAux ws (.tuple ((stk.take k).reverse) :: stk.drop k)
      else none
  | _, _ => none

/-- Decode a complete spec starting from the empty stack. -/
def decodeTerm (ws : List Word) : Option ETerm := decodeAux ws []

/-- The term a non-null cell's words push, as a function of the pool
state at the time the cell is encoded. -/
def cellTerm (fb : Nat → Nat) (st : EncSt) : Cell → ETerm
  | .int v => .int (column_int v)
  | .float _ => .flt (fb (st.floatCount + 1) + st.floatCount)
  | .text bytes => .bin st.binCount bytes.length
  | .blob bytes => .bin st.binCount bytes.length
  | .null => .nil

/-- The terms a row's cells push, in order; a NULL cell contributes no
term (and leaves the pool state unchanged). -/
def cellsTerms (fb : Nat → Nat) (st : EncSt) : List Cell → List ETerm
  | [] => []
  | .null :: cs => cellsTerms fb st cs
  | c :: cs => cellTerm fb st c :: cellsTerms fb (cellWords fb st c).2 cs

/-- The tuple a row's words push. -/
def rowTerm (fb : Nat → Nat) (st : EncSt) (r : List Cell) : ETerm :=
  .tuple (cellsTerms fb st r)

/-- The row tuples of the whole result set, threading pool state. -/
def rowsTerms (fb : Nat → Nat) (cc : Nat) (st : EncSt) :
    List (List Cell) → List ETerm
  | [] => []
  | r :: rs => rowTerm fb st r :: rowsTerms fb cc (rowWords fb cc st r).2 rs

/-- A prepared statement, as the black-box engine presents it: its SQL
text (`sqlite3_sql`), its column names, the rows the step loop will
yield, the terminal step status, and the last-insert rowid at
completion. -/
structure Stmt where
  sql : String
  cols : List String
  rows : List (List Cell)
  final : StepFinal
  lastRowid : Int

/-- Observable outcome of `sql_exec`: the term delivered through
`driver_output_term` by the path taken, whether an
`async_sqlite3_command` record was allocated, and whether a statement
handle was left to finalize. -/
structure ExecReply where
  reply : Option ETerm
  taskAllocated : Bool
  statementHeld : Bool

/-- Translation of `sql_exec`: when `sqlite3_prepare_v2` fails it
builds the `return_error` spec, outputs it and returns — no async
command record is allocated, and the engine left the out-statement NULL
so no handle is held.  On success the async command is allocated and
(synchronous mode, the `if (1)` branch) `sql_exec_async` runs followed
by `ready_async`, which outputs the dataset. -/
def sql_exec (fb : Nat → Nat) (p : Nat) (prep : Except String Stmt) :
    ExecReply :=
  match prep with
  | .error msg => ⟨decodeTerm (errorSpec msg), false, false⟩
  | .ok s =>
      ⟨decodeTerm
         (sql_exec_async fb p s.sql s.cols s.rows s.final s.lastRowid).dataset,
       true, true⟩

/-- Heap resources owned by one execution task: the locally built term
buffer (the `realloc` chain rooted at `dataset`), the 7-word error spec
`return_error` callocs, the float pool, the binary-pointer array, the
individual driver binaries, the prepared statement, and the
`async_sqlite3_command` record itself. -/
inductive Res where
  | localBuf
  | errSpec
  | floatsArr
  | binArr
  | binEntry (i : Nat)
  | stmt
  | cmdRec
deriving DecidableEq

/-- An allocation or release of a resource. -/
inductive Ev where
  | alloc (r : Res)
  | free (r : Res)
deriving DecidableEq

/-- Number of float cells in a cell list. -/
def nFloatsC (cs : List Cell) : Nat :=
  cs.countP (fun c => match c with | .float _ => true | _ => false)

/-- Number of text/blob cells in a cell list. -/
def nBinsC (cs : List Cell) : Nat :=
  cs.countP (fun c => match c with
    | .text _ => true | .blob _ => true | _ => false)

/-- Allocation events of one cell in the encoding loop, threading the
pool counters: the first float cell's `realloc(NULL, ...)` allocates the
float pool (later reallocs grow the same chain); likewise the first
text/blob cell allocates the pointer array, and every text/blob cell
allocates one driver binary. -/
def cellAllocs (st : Nat × Nat) (c : Cell) : List Ev × (Nat × Nat) :=
  match c with
  | .float _ =>
      ((if st.1 = 0 then [.alloc .floatsArr] else []), (st.1 + 1, st.2))
  | .text _ =>
      ((if st.2 = 0 then [.alloc .binArr] else []) ++ [.alloc (.binEntry st.2)],
       (st.1, st.2 + 1))
  | .blob _ =>
      ((if st.2 = 0 then [.alloc .binArr] else []) ++ [.alloc (.binEntry st.2)],
       (st.1, st.2 + 1))
  | _ => ([], st)

/-- Allocation events of a list of cells, in encoding order. -/
def cellsAllocs (st : Nat × Nat) : List Cell → List Ev × (Nat × Nat)
  | [] => ([], st)
  | c :: cs =>
      let a := cellAllocs st c
      let b := cellsAllocs a.2 cs
      (a.1 ++ b.1, b.2)

/-- Resource events of one execution task (successful prepare), from
the C control flow: `sqlite3_prepare_v2` creates the statement,
`sql_exec` callocs the command record, the first `realloc` in
`sql_exec_async` creates the local term buffer, then the encoding loop
runs; a busy or error completion callocs the error spec into
`async_command->dataset` (the local buffer is abandoned); finally
`ready_async` calls `sql_free_async`, which frees `dataset` (the local
buffer on success, the error spec otherwise), the float pool if
non-NULL, every driver binary, the pointer array if non-NULL, finalizes
the statement, and frees the record. -/
def taskEvents (cells : List Cell) (final : StepFinal) : List Ev :=
  [.alloc .stmt, .alloc .cmdRec, .alloc .localBuf] ++
  (cellsAllocs (0, 0) cells).1 ++
  (match final with | .done => [] | _ => [.alloc .errSpec]) ++
  (match final with | .done => [.free .localBuf] | _ => [.free .errSpec]) ++
  (if 0 < nFloatsC cells then [.free .floatsArr] else []) ++
  ((List.range (nBinsC cells)).map (fun i => .free (.binEntry i))) ++
  (if 0 < nBinsC cells then [.free .binArr] else []) ++
  [.free .stmt, .free .cmdRec]

/-- Net stack effect of a term spec under the wire format's reduction:
each value group pushes one term, a LIST or TUPLE marker of count n
pops n and pushes one.  A spec whose group structure is malformed never
decodes successfully, so its value here is irrelevant (0 by
convention). -/
def wordsDelta : List Word → Int
  | [] => 0
  | .op .ATOM :: .atom _ :: ws => 1 + wordsDelta ws
  | .op .INT :: .num _ :: ws => 1 + wordsDelta ws
  | .op .PORT :: .portVal _ :: ws => 1 + wordsDelta ws
  | .op .FLOAT :: .addr _ :: ws => 1 + wordsDelta ws
  | .op .STRING :: .strRef _ :: .num _ :: ws => 1 + wordsDelta ws
  | .op .BINARY :: .binRef _ :: .num _ :: .num _ :: ws => 1 + wordsDelta ws
  | .op .NIL :: ws => 1 + wordsDelta ws
  | .op .LIST :: .num n :: ws => 1 - (n.toNat : Int) + wordsDelta ws
  | .op .TUPLE :: .num n :: ws => 1 - (n.toNat : Int) + wordsDelta ws
  | _ => 0

/-- Whether a cell is SQL NULL. -/
def isNullC : Cell → Bool
  | .null => true
  | _ => false

/-- Number of NULL cells in a row. -/
def nullsC (r : List Cell) : Nat := r.countP isNullC

/-- Number of non-NULL cells in a row (the cells that emit a value). -/
def nnC (r : List Cell) : Nat := r.countP (fun c => !isNullC c)

/-- Total number of NULL cells in a result set. -/
def nullsRows (rows : List (List Cell)) : Nat := (rows.map nullsC).sum

/-- Total number of non-NULL cells in a result set. -/
def nnRows (rows : List (List Cell)) : Nat := (rows.map nnC).sum

theorem rowsTerms_length (fb : Nat → Nat) (cc : Nat) :
    ∀ (rows : List (List Cell)) (st : EncSt),
      (rowsTerms fb cc st rows).length = rows.length := by
  intro rows
  induction rows with
  | nil => intro st; rfl
  | cons r rs ih => intro st; simp [rowsTerms, ih]

theorem cellsTerms_length_of_noNull (fb : Nat → Nat) :
    ∀ (r : List Cell) (st : EncSt), (∀ c ∈ r, c ≠ Cell.null) →
      (cellsTerms fb st r).length = r.length := by
  intro r
  induction r with
  | nil => intro st _; rfl
  | cons c cs ih =>
      intro st h
      have hc : c ≠ Cell.null := h c (by simp)
      have hcs : ∀ x ∈ cs, x ≠ Cell.null := fun x hx => h x (by simp [hx])
      cases c with
      | null => exact absurd rfl hc
      | int v => simp [cellsTerms, ih _ hcs]
      | float b => simp [cellsTerms, ih _ hcs]
      | text b => simp [cellsTerms, ih _ hcs]
      | blob b => simp [cellsTerms, ih _ hcs]

theorem decodeAux_atom (s : String) (ws : List Word) (stk : List ETerm) :
    decodeAux (.op .ATOM :: .atom s :: ws) stk =
      decodeAux ws (.atom s :: stk) := rfl

theorem decodeAux_port (p : Nat) (ws : List Word) (stk : List ETerm) :
    decodeAux (.op .PORT :: .portVal p :: ws) stk =
      decodeAux ws (.port p :: stk) := rfl

theorem decodeAux_nilw (ws : List Word) (stk : List ETerm) :
    decodeAux (.op .NIL :: ws) stk = decodeAux ws (.nil :: stk) := rfl

/-- A LIST marker whose count is the pushed element count plus one (for
the tail) pops those elements and the nil tail into a proper list. -/
theorem decodeAux_listMarker (ts : List ETerm) (ws : List Word)
    (stk : List ETerm) :
    decodeAux (.op .LIST :: .num ((ts.length : Int) + 1) :: ws)
        (.nil :: (ts.reverse ++ stk)) =
      decodeAux ws (listOf ts :: stk) := by
  have hk : ((ts.length : Int) + 1).toNat = ts.length + 1 := by omega
  have hguard : 1 ≤ ts.length + 1 ∧
      ts.length + 1 ≤ (ETerm.nil :: (ts.reverse ++ stk)).length := by
    simp
  simp only [decodeAux, hk]
  rw [if_pos hguard]
  have htake : (ETerm.nil :: (ts.reverse ++ stk)).take (ts.length + 1) =
      ETerm.nil :: ts.reverse := by
    rw [List.take_succ_cons, List.take_left' (by simp)]
  have hdrop : (ETerm.nil :: (ts.reverse ++ stk)).drop (ts.length + 1) = stk := by
    rw [List.drop_succ_cons, List.drop_left' (by simp)]
  rw [htake, hdrop]
  simp [List.foldl_reverse, listOf]

/-- A TUPLE marker whose arity is the pushed element count pops exactly
those elements into a tuple. -/
theorem decodeAux_tupleMarker (ts : List ETerm) (ws : List Word)
    (stk : List ETerm) :
    decodeAux (.op .TUPLE :: .num ((ts.length : Int)) :: ws)
        (ts.reverse ++ stk) =
      decodeAux ws (.tuple ts :: stk) := by
  have hk : ((ts.length : Int)).toNat = ts.length := by omega
  have hguard : ts.length ≤ (ts.reverse ++ stk).length := by simp
  simp only [decodeAux, hk]
  rw [if_pos hguard]
  rw [List.take_left' (by simp), List.drop_left' (by simp),
    List.reverse_reverse]

theorem decodeAux_cols (cols : List String) :
    ∀ (ws : List Word) (stk : List ETerm),
      decodeAux (colWords cols ++ ws) stk =
        decodeAux ws ((cols.map ETerm.atom).reverse ++ stk) := by
  induction cols with
  | nil => intro ws stk; rfl
  | cons c cs ih =>
      intro ws stk
      simp only [colWords, List.cons_append, decodeAux_atom, ih]
      simp

theorem decodeAux_cell (fb : Nat → Nat) (st : EncSt) (c : Cell)
    (h : c ≠ Cell.null) (ws : List Word) (stk : List ETerm) :
    decodeAux ((cellWords fb st c).1 ++ ws) stk =
      decodeAux ws (cellTerm fb st c :: stk) := by
  cases c with
  | null => exact absurd rfl h
  | int v => rfl
  | float b => rfl
  | text b => simp [cellWords, cellTerm, decodeAux]
  | blob b => simp [cellWords, cellTerm, decodeAux]

theorem decodeAux_cells (fb : Nat → Nat) :
    ∀ (cs : List Cell) (st : EncSt) (ws : List Word) (stk : List ETerm),
      decodeAux ((cellsWords fb st cs).1 ++ ws) stk =
        decodeAux ws ((cellsTerms fb st cs).reverse ++ stk) := by
  intro cs
  induction cs with
  | nil => intro st ws stk; rfl
  | cons c cs ih =>
      intro st ws stk
      cases c with
      | null =>
          simp only [cellsWords, cellWords, cellsTerms]
          simpa using ih st ws stk
      | int v =>
          simp only [cellsWords, cellsTerms]
          rw [List.append_assoc, decodeAux_cell fb st (.int v) (by simp) _ _,
            ih]
          simp
      | float b =>
          simp only [cellsWords, cellsTerms]
          rw [List.append_assoc, decodeAux_cell fb st (.float b) (by simp) _ _,
            ih]
          simp
      | text b =>
          simp only [cellsWords, cellsTerms]
          rw [List.append_assoc, decodeAux_cell fb st (.text b) (by simp) _ _,
            ih]
          simp
      | blob b =>
          simp only [cellsWords, cellsTerms]
          rw [List.append_assoc, decodeAux_cell fb st (.blob b) (by simp) _ _,
            ih]
          simp

theorem rowWords_eq (fb : Nat → Nat) (cc : Nat) (st : EncSt) (r : List Cell) :
    rowWords fb cc st r =
      ((cellsWords fb st r).1 ++ [.op .TUPLE, .num (cc : Int)],
       (cellsWords fb st r).2) := rfl

theorem rowsWords_cons (fb : Nat → Nat) (cc : Nat) (st : EncSt)
    (r : List Cell) (rs : List (List Cell)) :
    rowsWords fb cc st (r :: rs) =
      ((rowWords fb cc st r).1 ++
         (rowsWords fb cc (rowWords fb cc st r).2 rs).1,
       (rowsWords fb cc (rowWords fb cc st r).2 rs).2) := rfl

theorem decodeAux_row (fb : Nat → Nat) (cc : Nat) (st : EncSt)
    (r : List Cell) (hlen : r.length = cc) (hnn : ∀ c ∈ r, c ≠ Cell.null)
    (ws : List Word) (stk : List ETerm) :
    decodeAux ((rowWords fb cc st r).1 ++ ws) stk =
      decodeAux ws (rowTerm fb st r :: stk) := by
  have hct : (cellsTerms fb st r).length = cc := by
    rw [cellsTerms_length_of_noNull fb r st hnn, hlen]
  have hcast : ((cc : Int)) = (((cellsTerms fb st r).length : Int)) := by
    rw [hct]
  rw [rowWords_eq]
  simp only [List.append_assoc]
  rw [decodeAux_cells]
  simp only [List.cons_append, List.nil_append]
  rw [hcast]
  exact decodeAux_tupleMarker (cellsTerms fb st r) ws stk

theorem decodeAux_rowsW (fb : Nat → Nat) (cc : Nat) :
    ∀ (rows : List (List Cell)) (st : EncSt) (ws : List Word)
      (stk : List ETerm),
      (∀ r ∈ rows, r.length = cc ∧ ∀ c ∈ r, c ≠ Cell.null) →
      decodeAux ((rowsWords fb cc st rows).1 ++ ws) stk =
        decodeAux ws ((rowsTerms fb cc st rows).reverse ++ stk) := by
  intro rows
  induction rows with
  | nil => intro st ws stk _; rfl
  | cons r rs ih =>
      intro st ws stk h
      obtain ⟨hlen, hnn⟩ := h r (by simp)
      have hrs : ∀ x ∈ rs, x.length = cc ∧ ∀ c ∈ x, c ≠ Cell.null :=
        fun x hx => h x (by simp [hx])
      rw [rowsWords_cons]
      simp only [List.append_assoc]
      rw [decodeAux_row fb cc st r hlen hnn, ih _ _ _ hrs]
      simp [rowsTerms]

/-- Decoding the 7-word spec built by `return_error`: the 2-tuple of the
atom `error` and the message string. -/
theorem decode_errorSpec (msg : String) :
    decodeTerm (errorSpec msg) =
      some (.tuple [.atom "error", .str msg]) := rfl

theorem decodeAux_tuple2 (a b : ETerm) (ws : List Word) (stk : List ETerm) :
    decodeAux (.op .TUPLE :: .num 2 :: ws) (b :: a :: stk) =
      decodeAux ws (.tuple [a, b] :: stk) := by
  have h := decodeAux_tupleMarker [a, b] ws stk
  simpa using h

theorem decodeAux_list3 (a b : ETerm) (ws : List Word) (stk : List ETerm) :
    decodeAux (.op .LIST :: .num 3 :: ws) (.nil :: b :: a :: stk) =
      decodeAux ws (listOf [a, b] :: stk) := by
  have h := decodeAux_listMarker [a, b] ws stk
  norm_num at h
  simpa using h

/-- Master shape theorem for a result set (`column_count > 0`) whose
stepping completes with `SQLITE_DONE`: the delivered spec decodes to the
2-tuple of the destination port and the two-element list of the
`columns` tuple and the `rows` tuple.  Rows must be engine-shaped
(`column_count` cells each) and null-free for the spec to be a
well-formed term. -/
theorem decode_done_result (fb : Nat → Nat) (p : Nat) (sql : String)
    (cols : List String) (rows : List (List Cell)) (rid : Int)
    (hcc : cols ≠ [])
    (hrows : ∀ r ∈ rows, r.length = cols.length ∧ ∀ c ∈ r, c ≠ Cell.null) :
    decodeTerm (sql_exec_async fb p sql cols rows .done rid).dataset =
      some (.tuple [.port p,
        listOf [.tuple [.atom "columns", listOf (cols.map .atom)],
                .tuple [.atom "rows",
                  listOf (rowsTerms fb cols.length EncSt.init rows)]]]) := by
  have hlen : 0 < cols.length := List.length_pos.mpr hcc
  simp only [sql_exec_async, decodeTerm]
  rw [if_pos hlen, if_pos hlen]
  simp only [List.append_assoc, List.cons_append, List.nil_append]
  rw [decodeAux_port, decodeAux_atom, decodeAux_cols]
  rw [decodeAux_nilw]
  have h1 := decodeAux_listMarker (cols.map ETerm.atom)
  simp only [List.length_map] at h1
  rw [h1, decodeAux_tuple2, decodeAux_atom]
  rw [decodeAux_rowsW fb cols.length rows EncSt.init _ _ hrows]
  rw [decodeAux_nilw]
  have h2 : ((rows.length : Int) + 1) =
      (((rowsTerms fb cols.length EncSt.init rows).length : Int) + 1) := by
    rw [rowsTerms_length]
  rw [h2, decodeAux_listMarker (rowsTerms fb cols.length EncSt.init rows)]
  rw [decodeAux_tuple2, decodeAux_nilw, decodeAux_list3, decodeAux_tuple2]
  rfl

theorem decodeAux_int (n : Int) (ws : List Word) (stk : List ETerm) :
    decodeAux (.op .INT :: .num n :: ws) stk =
      decodeAux ws (.int n :: stk) := rfl

/-- Master shape theorem for a no-column statement whose SQL text
contains "INSERT" case-insensitively: the spec decodes to the 2-tuple
of the port and the pair of the atom `id` and the rowid. -/
theorem decode_done_insert (fb : Nat → Nat) (p : Nat) (sql : String)
    (rid : Int) (hins : containsInsert sql = true) :
    decodeTerm (sql_exec_async fb p sql [] [] .done rid).dataset =
      some (.tuple [.port p, .tuple [.atom "id", .int rid]]) := by
  simp only [sql_exec_async, decodeTerm]
  rw [if_neg (by simp), if_neg (by simp), if_pos hins]
  simp only [rowsWords, List.append_assoc, List.cons_append, List.nil_append,
    List.append_nil]
  rw [decodeAux_port, decodeAux_atom, decodeAux_int, decodeAux_tuple2,
    decodeAux_tuple2]
  rfl

/-- Master shape theorem for a no-column statement whose SQL text does
not contain "INSERT": the spec decodes to the 2-tuple of the port and
the pair of the atom `ok` and the final step code `SQLITE_DONE`. -/
theorem decode_done_status (fb : Nat → Nat) (p : Nat) (sql : String)
    (rid : Int) (hins : containsInsert sql = false) :
    decodeTerm (sql_exec_async fb p sql [] [] .done rid).dataset =
      some (.tuple [.port p, .tuple [.atom "ok", .int SQLITE_DONE]]) := by
  simp only [sql_exec_async, decodeTerm]
  rw [if_neg (by simp), if_neg (by simp), if_neg (by simp [hins])]
  simp only [rowsWords, List.append_assoc, List.cons_append, List.nil_append,
    List.append_nil]
  rw [decodeAux_port, decodeAux_atom, decodeAux_int, decodeAux_tuple2,
    decodeAux_tuple2]
  rfl

/-- A busy completion replaces the dataset with the fixed busy error
spec, whatever was encoded so far. -/
theorem decode_terminal_busy (fb : Nat → Nat) (p : Nat) (sql : String)
    (cols : List String) (rows : List (List Cell)) (rid : Int) :
    decodeTerm (sql_exec_async fb p sql cols rows .busy rid).dataset =
      some (.tuple [.atom "error", .str "SQLite3 database is busy"]) :=
  decode_errorSpec _

/-- Any other non-success completion replaces the dataset with the
engine-message error spec. -/
theorem decode_terminal_err (fb : Nat → Nat) (p : Nat) (sql : String)
    (cols : List String) (rows : List (List Cell)) (rid : Int)
    (m : String) :
    decodeTerm (sql_exec_async fb p sql cols rows (.err m) rid).dataset =
      some (.tuple [.atom "error", .str m]) :=
  decode_errorSpec _

theorem cellsAllocs_cons (st : Nat × Nat) (c : Cell) (cs : List Cell) :
    cellsAllocs st (c :: cs) =
      ((cellAllocs st c).1 ++ (cellsAllocs (cellAllocs st c).2 cs).1,
       (cellsAllocs (cellAllocs st c).2 cs).2) := rfl

theorem cellsAllocs_mem (cs : List Cell) :
    ∀ (st : Nat × Nat) (e : Ev), e ∈ (cellsAllocs st cs).1 →
      e = .alloc .floatsArr ∨ e = .alloc .binArr ∨
        ∃ k, e = .alloc (.binEntry k) := by
  induction cs with
  | nil => intro st e h; simp [cellsAllocs] at h
  | cons c cs ih =>
      intro st e h
      rw [cellsAllocs_cons] at h
      rcases List.mem_append.mp h with h | h
      · cases c with
        | float b =>
            by_cases h0 : st.1 = 0 <;> simp [cellAllocs, h0] at h
            exact Or.inl h
        | text b =>
            by_cases h0 : st.2 = 0 <;> simp [cellAllocs, h0] at h
            · rcases h with h | h
              · exact Or.inr (Or.inl h)
              · exact Or.inr (Or.inr ⟨_, h⟩)
            · exact Or.inr (Or.inr ⟨_, h⟩)
        | blob b =>
            by_cases h0 : st.2 = 0 <;> simp [cellAllocs, h0] at h
            · rcases h with h | h
              · exact Or.inr (Or.inl h)
              · exact Or.inr (Or.inr ⟨_, h⟩)
            · exact Or.inr (Or.inr ⟨_, h⟩)
        | int v => simp [cellAllocs] at h
        | null => simp [cellAllocs] at h
      · exact ih _ _ h

theorem cellsAllocs_count_free (cs : List Cell) (st : Nat × Nat) (r : Res) :
    List.count (Ev.free r) (cellsAllocs st cs).1 = 0 := by
  apply List.count_eq_zero.mpr
  intro hmem
  rcases cellsAllocs_mem cs st _ hmem with h | h | ⟨k, h⟩ <;> simp at h

theorem cellsAllocs_count_alloc_other (cs : List Cell) (st : Nat × Nat)
    (r : Res) (h1 : r ≠ .floatsArr) (h2 : r ≠ .binArr)
    (h3 : ∀ k, r ≠ .binEntry k) :
    List.count (Ev.alloc r) (cellsAllocs st cs).1 = 0 := by
  apply List.count_eq_zero.mpr
  intro hmem
  rcases cellsAllocs_mem cs st _ hmem with h | h | ⟨k, h⟩
  · exact h1 (by injection h)
  · exact h2 (by injection h)
  · exact h3 k (by injection h)

theorem cellsAllocs_count_floats (cs : List Cell) :
    ∀ fc bc : Nat,
      List.count (Ev.alloc .floatsArr) (cellsAllocs (fc, bc) cs).1 =
        if fc = 0 ∧ 0 < nFloatsC cs then 1 else 0 := by
  induction cs with
  | nil => intro fc bc; simp [cellsAllocs, nFloatsC]
  | cons c cs ih =>
      intro fc bc
      rw [cellsAllocs_cons, List.count_append]
      cases c with
      | float b =>
          simp only [cellAllocs]
          rw [ih (fc + 1) bc]
          have hn : nFloatsC (Cell.float b :: cs) = nFloatsC cs + 1 := by
            simp [nFloatsC]
          rw [hn]
          by_cases h0 : fc = 0 <;> simp [h0]
      | text b =>
          simp only [cellAllocs]
          rw [ih fc (bc + 1)]
          have hn : nFloatsC (Cell.text b :: cs) = nFloatsC cs := by
            simp [nFloatsC]
          rw [hn]
          by_cases h0 : bc = 0 <;> simp [h0]
      | blob b =>
          simp only [cellAllocs]
          rw [ih fc (bc + 1)]
          have hn : nFloatsC (Cell.blob b :: cs) = nFloatsC cs := by
            simp [nFloatsC]
          rw [hn]
          by_cases h0 : bc = 0 <;> simp [h0]
      | int v =>
          simp only [cellAllocs]
          rw [ih fc bc]
          have hn : nFloatsC (Cell.int v :: cs) = nFloatsC cs := by
            simp [nFloatsC]
          rw [hn]
          simp
      | null =>
          simp only [cellAllocs]
          rw [ih fc bc]
          have hn : nFloatsC (Cell.null :: cs) = nFloatsC cs := by
            simp [nFloatsC]
          rw [hn]
          simp

theorem cellsAllocs_count_binArr (cs : List Cell) :
    ∀ fc bc : Nat,
      List.count (Ev.alloc .binArr) (cellsAllocs (fc, bc) cs).1 =
        if bc = 0 ∧ 0 < nBinsC cs then 1 else 0 := by
  induction cs with
  | nil => intro fc bc; simp [cellsAllocs, nBinsC]
  | cons c cs ih =>
      intro fc bc
      rw [cellsAllocs_cons, List.count_append]
      cases c with
      | float b =>
          simp only [cellAllocs]
          rw [ih (fc + 1) bc]
          have hn : nBinsC (Cell.float b :: cs) = nBinsC cs := by
            simp [nBinsC]
          rw [hn]
          by_cases h0 : fc = 0 <;> simp [h0]
      | text b =>
          simp only [cellAllocs]
          rw [ih fc (bc + 1)]
          have hn : nBinsC (Cell.text b :: cs) = nBinsC cs + 1 := by
            simp [nBinsC]
          rw [hn]
          by_cases h0 : bc = 0 <;> simp [h0]
      | blob b =>
          simp only [cellAllocs]
          rw [ih fc (bc + 1)]
          have hn : nBinsC (Cell.blob b :: cs) = nBinsC cs + 1 := by
            simp [nBinsC]
          rw [hn]
          by_cases h0 : bc = 0 <;> simp [h0]
      | int v =>
          simp only [cellAllocs]
          rw [ih fc bc]
          have hn : nBinsC (Cell.int v :: cs) = nBinsC cs := by
            simp [nBinsC]
          rw [hn]
          simp
      | null =>
          simp only [cellAllocs]
          rw [ih fc bc]
          have hn : nBinsC (Cell.null :: cs) = nBinsC cs := by
            simp [nBinsC]
          rw [hn]
          simp

theorem cellsAllocs_count_binEntry (cs : List Cell) :
    ∀ (fc bc k : Nat),
      List.count (Ev.alloc (.binEntry k)) (cellsAllocs (fc, bc) cs).1 =
        if bc ≤ k ∧ k < bc + nBinsC cs then 1 else 0 := by
  induction cs with
  | nil =>
      intro fc bc k
      simp only [cellsAllocs, nBinsC, List.countP_nil, List.count_nil]
      rw [if_neg (by omega)]
  | cons c cs ih =>
      intro fc bc k
      rw [cellsAllocs_cons, List.count_append]
      cases c with
      | float b =>
          simp only [cellAllocs]
          rw [ih (fc + 1) bc k]
          have hn : nBinsC (Cell.float b :: cs) = nBinsC cs := by
            simp [nBinsC]
          rw [hn]
          by_cases h0 : fc = 0 <;> simp [h0]
      | text b =>
          simp only [cellAllocs]
          rw [ih fc (bc + 1) k]
          have hn : nBinsC (Cell.text b :: cs) = nBinsC cs + 1 := by
            simp [nBinsC]
          rw [hn]
          by_cases h0 : bc = 0 <;>
            by_cases hk : k = bc <;>
              simp [h0, hk, List.count_cons, List.count_append] <;>
                split_ifs <;> omega
      | blob b =>
          simp only [cellAllocs]
          rw [ih fc (bc + 1) k]
          have hn : nBinsC (Cell.blob b :: cs) = nBinsC cs + 1 := by
            simp [nBinsC]
          rw [hn]
          by_cases h0 : bc = 0 <;>
            by_cases hk : k = bc <;>
              simp [h0, hk, List.count_cons, List.count_append] <;>
                split_ifs <;> omega
      | int v =>
          simp only [cellAllocs]
          rw [ih fc bc k]
          have hn : nBinsC (Cell.int v :: cs) = nBinsC cs := by
            simp [nBinsC]
          rw [hn]
          simp
      | null =>
          simp only [cellAllocs]
          rw [ih fc bc k]
          have hn : nBinsC (Cell.null :: cs) = nBinsC cs := by
            simp [nBinsC]
          rw [hn]
          simp

theorem count_range_free_entry (n i : Nat) :
    List.count (Ev.free (.binEntry i))
        ((List.range n).map (fun j => Ev.free (.binEntry j))) =
      if i < n then 1 else 0 := by
  induction n with
  | zero => simp
  | succ n ih =>
      rw [List.range_succ, List.map_append, List.count_append, ih]
      simp [List.count_singleton]
      split_ifs <;> omega

theorem count_range_other (n : Nat) (e : Ev)
    (h : ∀ j, e ≠ Ev.free (.binEntry j)) :
    List.count e ((List.range n).map (fun j => Ev.free (.binEntry j))) = 0 := by
  apply List.count_eq_zero.mpr
  intro hmem
  rcases List.mem_map.mp hmem with ⟨j, _, hj⟩
  exact h j hj.symm

/-- Exact allocation count of each resource across one task. -/
theorem count_alloc_taskEvents (cells : List Cell) (final : StepFinal)
    (r : Res) :
    List.count (Ev.alloc r) (taskEvents cells final) =
      (match r with
       | .stmt => 1
       | .cmdRec => 1
       | .localBuf => 1
       | .errSpec => (match final with | .done => 0 | _ => 1)
       | .floatsArr => if 0 < nFloatsC cells then 1 else 0
       | .binArr => if 0 < nBinsC cells then 1 else 0
       | .binEntry i => if i < nBinsC cells then 1 else 0) := by
  have hrange := count_range_other (nBinsC cells) (Ev.alloc r) (by simp)
  cases r with
  | stmt =>
      have hother := fun st => cellsAllocs_count_alloc_other cells st Res.stmt
        (by simp) (by simp) (fun k => by simp)
      cases final <;>
        simp [taskEvents, List.count_append, List.count_cons, hrange, hother,
          apply_ite (List.count (Ev.alloc Res.stmt))]
  | cmdRec =>
      have hother := fun st => cellsAllocs_count_alloc_other cells st Res.cmdRec
        (by simp) (by simp) (fun k => by simp)
      cases final <;>
        simp [taskEvents, List.count_append, List.count_cons, hrange, hother,
          apply_ite (List.count (Ev.alloc Res.cmdRec))]
  | localBuf =>
      have hother := fun st =>
        cellsAllocs_count_alloc_other cells st Res.localBuf
          (by simp) (by simp) (fun k => by simp)
      cases final <;>
        simp [taskEvents, List.count_append, List.count_cons, hrange, hother,
          apply_ite (List.count (Ev.alloc Res.localBuf))]
  | errSpec =>
      have hother := fun st => cellsAllocs_count_alloc_other cells st Res.errSpec
        (by simp) (by simp) (fun k => by simp)
      cases final <;>
        simp [taskEvents, List.count_append, List.count_cons, hrange, hother,
          apply_ite (List.count (Ev.alloc Res.errSpec))]
  | floatsArr =>
      have hc : List.count (Ev.alloc Res.floatsArr)
          (cellsAllocs (0 : Nat × Nat) cells).1 =
            if 0 < nFloatsC cells then 1 else 0 := by
        simpa using cellsAllocs_count_floats cells 0 0
      cases final <;>
        simp [taskEvents, List.count_append, List.count_cons, hrange, hc,
          apply_ite (List.count (Ev.alloc Res.floatsArr))]
  | binArr =>
      have hc : List.count (Ev.alloc Res.binArr)
          (cellsAllocs (0 : Nat × Nat) cells).1 =
            if 0 < nBinsC cells then 1 else 0 := by
        simpa using cellsAllocs_count_binArr cells 0 0
      cases final <;>
        simp [taskEvents, List.count_append, List.count_cons, hrange, hc,
          apply_ite (List.count (Ev.alloc Res.binArr))]
  | binEntry i =>
      have hc : List.count (Ev.alloc (Res.binEntry i))
          (cellsAllocs (0 : Nat × Nat) cells).1 =
            if i < nBinsC cells then 1 else 0 := by
        simpa using cellsAllocs_count_binEntry cells 0 0 i
      cases final <;>
        simp [taskEvents, List.count_append, List.count_cons, hrange, hc,
          apply_ite (List.count (Ev.alloc (Res.binEntry i)))]

/-- Exact release count of each resource across one task. -/
theorem count_free_taskEvents (cells : List Cell) (final : StepFinal)
    (r : Res) :
    List.count (Ev.free r) (taskEvents cells final) =
      (match r with
       | .stmt => 1
       | .cmdRec => 1
       | .localBuf => (match final with | .done => 1 | _ => 0)
       | .errSpec => (match final with | .done => 0 | _ => 1)
       | .floatsArr => if 0 < nFloatsC cells then 1 else 0
       | .binArr => if 0 < nBinsC cells then 1 else 0
       | .binEntry i => if i < nBinsC cells then 1 else 0) := by
  cases r with
  | stmt =>
      have hrange := count_range_other (nBinsC cells) (Ev.free Res.stmt)
        (fun j => by simp)
      cases final <;>
        simp [taskEvents, List.count_append, List.count_cons, hrange,
          cellsAllocs_count_free,
          apply_ite (List.count (Ev.free Res.stmt))]
  | cmdRec =>
      have hrange := count_range_other (nBinsC cells) (Ev.free Res.cmdRec)
        (fun j => by simp)
      cases final <;>
        simp [taskEvents, List.count_append, List.count_cons, hrange,
          cellsAllocs_count_free,
          apply_ite (List.count (Ev.free Res.cmdRec))]
  | localBuf =>
      have hrange := count_range_other (nBinsC cells) (Ev.free Res.localBuf)
        (fun j => by simp)
      cases final <;>
        simp [taskEvents, List.count_append, List.count_cons, hrange,
          cellsAllocs_count_free,
          apply_ite (List.count (Ev.free Res.localBuf))]
  | errSpec =>
      have hrange := count_range_other (nBinsC cells) (Ev.free Res.errSpec)
        (fun j => by simp)
      cases final <;>
        simp [taskEvents, List.count_append, List.count_cons, hrange,
          cellsAllocs_count_free,
          apply_ite (List.count (Ev.free Res.errSpec))]
  | floatsArr =>
      have hrange := count_range_other (nBinsC cells) (Ev.free Res.floatsArr)
        (fun j => by simp)
      cases final <;>
        simp [taskEvents, List.count_append, List.count_cons, hrange,
          cellsAllocs_count_free,
          apply_ite (List.count (Ev.free Res.floatsArr))]
  | binArr =>
      have hrange := count_range_other (nBinsC cells) (Ev.free Res.binArr)
        (fun j => by simp)
      cases final <;>
        simp [taskEvents, List.count_append, List.count_cons, hrange,
          cellsAllocs_count_free,
          apply_ite (List.count (Ev.free Res.binArr))]
  | binEntry i =>
      cases final <;>
        simp [taskEvents, List.count_append, List.count_cons,
          count_range_free_entry, cellsAllocs_count_free,
          apply_ite (List.count (Ev.free (Res.binEntry i)))]

/-- Decoding success forces spec balance: a spec that reduces to a
single term has net stack effect one minus the starting stack depth. -/
theorem decode_balance (ws : List Word) (stk : List ETerm) (t : ETerm)
    (h : decodeAux ws stk = some t) :
    wordsDelta ws + (stk.length : Int) = 1 := by
  induction ws, stk using decodeAux.induct generalizing t with
  | case1 t0 => simp [wordsDelta]
  | case2 s ws stk ih =>
      have h2 := ih t h
      simp only [wordsDelta, List.length_cons] at h2 ⊢
      omega
  | case3 n ws stk ih =>
      have h2 := ih t h
      simp only [wordsDelta, List.length_cons] at h2 ⊢
      omega
  | case4 p ws stk ih =>
      have h2 := ih t h
      simp only [wordsDelta, List.length_cons] at h2 ⊢
      omega
  | case5 a ws stk ih =>
      have h2 := ih t h
      simp only [wordsDelta, List.length_cons] at h2 ⊢
      omega
  | case6 s n ws stk ih =>
      have h2 := ih t h
      simp only [wordsDelta, List.length_cons] at h2 ⊢
      omega
  | case7 i l n ws stk ih =>
      have h2 := ih t h
      simp only [wordsDelta, List.length_cons] at h2 ⊢
      omega
  | case8 ws stk ih =>
      have h2 := ih t h
      simp only [wordsDelta, List.length_cons] at h2 ⊢
      omega
  | case9 n ws stk k hguard ih =>
      simp only [decodeAux] at h
      rw [if_pos hguard] at h
      have h2 := ih t h
      simp only [wordsDelta, List.length_cons, List.length_drop] at h2 ⊢
      omega
  | case10 n ws stk k hguard =>
      simp only [decodeAux] at h
      rw [if_neg hguard] at h
      exact Option.noConfusion h
  | case11 n ws stk k hguard ih =>
      simp only [decodeAux] at h
      rw [if_pos hguard] at h
      have h2 := ih t h
      simp only [wordsDelta, List.length_cons, List.length_drop] at h2 ⊢
      omega
  | case12 n ws stk k hguard =>
      simp only [decodeAux] at h
      rw [if_neg hguard] at h
      exact Option.noConfusion h
  | case13 ws stk hx1 hx2 hx3 hx4 hx5 hx6 hx7 hx8 hx9 hx10 =>
      rw [decodeAux.eq_def] at h
      split at h
      · exact (hx1 _ rfl rfl).elim
      · exact (hx2 _ _ rfl).elim
      · exact (hx3 _ _ rfl).elim
      · exact (hx4 _ _ rfl).elim
      · exact (hx5 _ _ rfl).elim
      · exact (hx6 _ _ _ rfl).elim
      · exact (hx7 _ _ _ _ rfl).elim
      · exact (hx8 _ rfl).elim
      · exact (hx9 _ _ rfl).elim
      · exact (hx10 _ _ rfl).elim
      · exact Option.noConfusion h

theorem cellsWords_cons (fb : Nat → Nat) (st : EncSt) (c : Cell)
    (cs : List Cell) :
    cellsWords fb st (c :: cs) =
      ((cellWords fb st c).1 ++ (cellsWords fb (cellWords fb st c).2 cs).1,
       (cellsWords fb (cellWords fb st c).2 cs).2) := rfl

theorem nn_add_nulls (r : List Cell) : nnC r + nullsC r = r.length := by
  induction r with
  | nil => rfl
  | cons c cs ih =>
      cases c <;> simp [nnC, nullsC, isNullC, List.countP_cons] at ih ⊢ <;>
        omega

theorem wordsDelta_cell (fb : Nat → Nat) (st : EncSt) (c : Cell)
    (ws : List Word) :
    wordsDelta ((cellWords fb st c).1 ++ ws) =
      (if isNullC c then 0 else 1) + wordsDelta ws := by
  cases c <;> simp [cellWords, wordsDelta, isNullC]

theorem wordsDelta_cells (fb : Nat → Nat) :
    ∀ (cs : List Cell) (st : EncSt) (ws : List Word),
      wordsDelta ((cellsWords fb st cs).1 ++ ws) =
        (nnC cs : Int) + wordsDelta ws := by
  intro cs
  induction cs with
  | nil => intro st ws; simp [cellsWords, nnC]
  | cons c cs ih =>
      intro st ws
      rw [cellsWords_cons]
      simp only [List.append_assoc]
      rw [wordsDelta_cell, ih]
      have : nnC (c :: cs) = (if isNullC c then 0 else 1) + nnC cs := by
        cases c <;> simp [nnC, isNullC, List.countP_cons] <;> omega
      rw [this]
      cases c <;> simp [isNullC] <;> ring

theorem wordsDelta_row (fb : Nat → Nat) (cc : Nat) (st : EncSt)
    (r : List Cell) (ws : List Word) :
    wordsDelta ((rowWords fb cc st r).1 ++ ws) =
      (nnC r : Int) + (1 - (cc : Int)) + wordsDelta ws := by
  rw [rowWords_eq]
  simp only [List.append_assoc]
  rw [wordsDelta_cells]
  have h2 : wordsDelta (Word.op Op.TUPLE :: Word.num (cc : Int) :: ws) =
      1 - (cc : Int) + wordsDelta ws := by
    simp only [wordsDelta]
    have : (((cc : Int)).toNat : Int) = (cc : Int) := by omega
    rw [this]
  simp only [List.cons_append, List.nil_append]
  rw [h2]
  ring

theorem wordsDelta_rows (fb : Nat → Nat) (cc : Nat) :
    ∀ (rows : List (List Cell)) (st : EncSt) (ws : List Word),
      wordsDelta ((rowsWords fb cc st rows).1 ++ ws) =
        (nnRows rows : Int) + rows.length * (1 - (cc : Int)) + wordsDelta ws := by
  intro rows
  induction rows with
  | nil => intro st ws; simp [rowsWords, nnRows]
  | cons r rs ih =>
      intro st ws
      rw [rowsWords_cons]
      simp only [List.append_assoc]
      rw [wordsDelta_row, ih]
      have : nnRows (r :: rs) = nnC r + nnRows rs := by
        simp [nnRows]
      rw [this]
      simp only [List.length_cons]
      push_cast
      ring

theorem wordsDelta_cols :
    ∀ (cols : List String) (ws : List Word),
      wordsDelta (colWords cols ++ ws) = (cols.length : Int) + wordsDelta ws := by
  intro cols
  induction cols with
  | nil => intro ws; simp [colWords]
  | cons c cs ih =>
      intro ws
      show wordsDelta ((Word.op Op.ATOM :: Word.atom c :: colWords cs) ++ ws) = _
      simp only [List.cons_append, wordsDelta, List.append_eq]
      rw [ih]
      simp only [List.length_cons]
      push_cast
      ring

theorem nnRows_add_nulls (cc : Nat) :
    ∀ (rows : List (List Cell)), (∀ r ∈ rows, r.length = cc) →
      nnRows rows + nullsRows rows = rows.length * cc := by
  intro rows
  induction rows with
  | nil => intro _; simp [nnRows, nullsRows]
  | cons r rs ih =>
      intro h
      have hr : r.length = cc := h r (by simp)
      have hrs := ih (fun x hx => h x (by simp [hx]))
      have h1 : nnC r + nullsC r = cc := by rw [nn_add_nulls, hr]
      have e1 : nnRows (r :: rs) = nnC r + nnRows rs := by simp [nnRows]
      have e2 : nullsRows (r :: rs) = nullsC r + nullsRows rs := by
        simp [nullsRows]
      calc nnRows (r :: rs) + nullsRows (r :: rs)
          = (nnC r + nullsC r) + (nnRows rs + nullsRows rs) := by
            rw [e1, e2]; ring
        _ = cc + rs.length * cc := by rw [h1, hrs]
        _ = (rs.length + 1) * cc := by ring
        _ = (r :: rs).length * cc := by rw [List.length_cons]

theorem wordsDelta_dataset (fb : Nat → Nat) (p : Nat) (sql : String)
    (cols : List String) (rows : List (List Cell)) (rid : Int)
    (hcc : cols ≠ [])
    (hlen : ∀ r ∈ rows, r.length = cols.length) :
    wordsDelta (sql_exec_async fb p sql cols rows .done rid).dataset =
      1 - (nullsRows rows : Int) := by
  have hpos : 0 < cols.length := List.length_pos.mpr hcc
  simp only [sql_exec_async]
  rw [if_pos hpos, if_pos hpos]
  simp only [List.append_assoc, List.cons_append, List.nil_append]
  simp only [wordsDelta]
  rw [wordsDelta_cols]
  simp only [wordsDelta]
  rw [wordsDelta_rows]
  simp only [wordsDelta]
  have hsum : (nnRows rows : Int) + (nullsRows rows : Int) =
      (rows.length : Int) * (cols.length : Int) := by
    exact_mod_cast congrArg (Nat.cast (R := Int))
      (nnRows_add_nulls cols.length rows hlen)
  have hk1 : ((((cols.length : Int) + 1)).toNat : Int) = (cols.length : Int) + 1 := by
    omega
  have hk2 : ((((rows.length : Int) + 1)).toNat : Int) = (rows.length : Int) + 1 := by
    omega
  rw [hk1, hk2]
  have hk3 : (((2 : Int)).toNat : Int) = 2 := rfl
  have hk4 : (((3 : Int)).toNat : Int) = 3 := rfl
  rw [hk3, hk4]
  linear_combination hsum

theorem cellWords_count_tuple (fb : Nat → Nat) (st : EncSt) (c : Cell) :
    List.count (Word.op .TUPLE) (cellWords fb st c).1 = 0 := by
  cases c <;> simp [cellWords, List.count_cons]

theorem cellsWords_count_tuple (fb : Nat → Nat) :
    ∀ (cs : List Cell) (st : EncSt),
      List.count (Word.op .TUPLE) (cellsWords fb st cs).1 = 0 := by
  intro cs
  induction cs with
  | nil => intro st; rfl
  | cons c cs ih =>
      intro st
      rw [cellsWords_cons]
      show List.count (Word.op .TUPLE)
          ((cellWords fb st c).1 ++ (cellsWords fb (cellWords fb st c).2 cs).1)
          = 0
      rw [List.count_append, cellWords_count_tuple, ih]

theorem rowWords_count_tuple (fb : Nat → Nat) (cc : Nat) (st : EncSt)
    (r : List Cell) :
    List.count (Word.op .TUPLE) (rowWords fb cc st r).1 = 1 := by
  show List.count (Word.op .TUPLE)
      ((cellsWords fb st r).1 ++ [.op .TUPLE, .num (cc : Int)]) = 1
  rw [List.count_append, cellsWords_count_tuple]
  simp [List.count_cons]

theorem rowsWords_count_tuple (fb : Nat → Nat) (cc : Nat) :
    ∀ (rows : List (List Cell)) (st : EncSt),
      List.count (Word.op .TUPLE) (rowsWords fb cc st rows).1 =
        rows.length := by
  intro rows
  induction rows with
  | nil => intro st; rfl
  | cons r rs ih =>
      intro st
      rw [rowsWords_cons]
      show List.count (Word.op .TUPLE)
          ((rowWords fb cc st r).1 ++
            (rowsWords fb cc (rowWords fb cc st r).2 rs).1) = _
      rw [List.count_append, rowWords_count_tuple, ih]
      simp only [List.length_cons]
      omega

/-- Claim C1, counterexample: encoding SELECT 42 does not yield a reply
whose body carries an ok status tag wrapping the columns header and the
rows list — the code emits no ok atom in the result-set envelope. -/
theorem c1_counterexample :
    decodeTerm (sql_exec_async (fun _ => 0) 1 "SELECT 42" ["col1"]
        [[Cell.int 42]] .done 0).dataset ≠
      some (.tuple [.port 1,
        .tuple [.atom "ok",
          .tuple [.atom "columns", listOf [.atom "col1"]],
          .tuple [.atom "rows", listOf [.tuple [.int 42]]]]]) := by
  rw [show decodeTerm (sql_exec_async (fun _ => 0) 1 "SELECT 42" ["col1"]
        [[Cell.int 42]] .done 0).dataset =
      some (.tuple [.port 1,
        listOf [.tuple [.atom "columns", listOf [.atom "col1"]],
                .tuple [.atom "rows", listOf [.tuple [.int 42]]]]])
    from rfl]
  simp [listOf]

/-- Claim C1, amended: for every statement with column_count > 0
whose stepping ends with SQLITE_DONE (rows engine-shaped, one cell per
declared column), the delivered reply is characterized completely: when
no cell is NULL it is the 2-tuple of the destination port and the
two-element LIST holding the columns tuple and the rows tuple — there
is no ok status tag anywhere — and encoding SELECT 42 yields the port
paired with the list of (columns, [col1]) and (rows, [(42)]); when any
cell is NULL the emitted spec is malformed (value slots are omitted but
tuple arities are not reduced) and the wire format's reduction delivers
no term at all. -/
theorem c1_reply_shape (fb : Nat → Nat) (p : Nat) (sql : String)
    (cols : List String) (rows : List (List Cell)) (rid : Int)
    (hcc : cols ≠ [])
    (hlen : ∀ r ∈ rows, r.length = cols.length) :
    decodeTerm (sql_exec_async fb p sql cols rows .done rid).dataset =
      (if ∀ r ∈ rows, ∀ c ∈ r, c ≠ Cell.null then
        some (.tuple [.port p,
          listOf [.tuple [.atom "columns", listOf (cols.map .atom)],
                  .tuple [.atom "rows",
                    listOf (rowsTerms fb cols.length EncSt.init rows)]]])
      else none) := by
  split_ifs with hn
  · exact decode_done_result fb p sql cols rows rid hcc
      (fun r hr => ⟨hlen r hr, hn r hr⟩)
  · cases hdec : decodeTerm
        (sql_exec_async fb p sql cols rows .done rid).dataset with
    | none => rfl
    | some t =>
        exfalso
        have hbal := decode_balance _ [] t hdec
        have hwd := wordsDelta_dataset fb p sql cols rows rid hcc hlen
        rw [hwd] at hbal
        have hzero : nullsRows rows = 0 := by
          simp only [List.length_nil, Nat.cast_zero] at hbal
          omega
        push_neg at hn
        obtain ⟨r, hr, c, hc, hcnull⟩ := hn
        have h1 : 0 < nullsC r :=
          List.countP_pos_iff.mpr ⟨c, hc, by rw [hcnull]; rfl⟩
        have h2 : nullsC r ≤ nullsRows rows :=
          List.single_le_sum (fun x _ => Nat.zero_le x) _
            (List.mem_map_of_mem nullsC hr)
        omega

/-- Witness for C1 at SELECT 42. -/
theorem c1_reply_shape_witness :
    (["col1"] : List String) ≠ [] ∧
    decodeTerm (sql_exec_async (fun _ => 0) 1 "SELECT 42" ["col1"]
        [[Cell.int 42]] .done 0).dataset =
      some (.tuple [.port 1,
        listOf [.tuple [.atom "columns", listOf [.atom "col1"]],
                .tuple [.atom "rows", listOf [.tuple [.int 42]]]]]) := by
  refine ⟨by simp, ?_⟩
  have h := c1_reply_shape (fun _ => 0) 1 "SELECT 42" ["col1"]
    [[Cell.int 42]] 0 (by simp) (by decide)
  rw [if_pos (by decide)] at h
  exact h

/-- Claim C2, counterexample: the INSERT reply has no ok wrapper around
the id pair. -/
theorem c2_counterexample :
    decodeTerm (sql_exec_async (fun _ => 0) 1 "INSERT INTO t VALUES (1)"
        [] [] .done 5).dataset ≠
      some (.tuple [.port 1,
        .tuple [.atom "ok", .tuple [.atom "id", .int 5]]]) := by
  rw [show decodeTerm (sql_exec_async (fun _ => 0) 1 "INSERT INTO t VALUES (1)"
        [] [] .done 5).dataset =
      some (.tuple [.port 1, .tuple [.atom "id", .int 5]]) from rfl]
  simp

/-- Claim C2, amended: for every statement that returns no columns and
whose SQL text case-insensitively contains "INSERT", the reply is the
2-tuple of the destination port and the pair of the atom id and the
engine's last-insert rowid — with no ok wrapper around the id pair. -/
theorem c2_insert_reply (fb : Nat → Nat) (p : Nat) (sql : String)
    (cols : List String) (rows : List (List Cell)) (rid : Int)
    (hc : cols = []) (hr : rows = [])
    (hins : containsInsert sql = true) :
    decodeTerm (sql_exec_async fb p sql cols rows .done rid).dataset =
      some (.tuple [.port p, .tuple [.atom "id", .int rid]]) := by
  subst hc; subst hr
  exact decode_done_insert fb p sql rid hins

/-- Witness for C2 at INSERT INTO t VALUES (1) with rowid 5. -/
theorem c2_insert_reply_witness :
    containsInsert "INSERT INTO t VALUES (1)" = true ∧
    decodeTerm (sql_exec_async (fun _ => 0) 1 "INSERT INTO t VALUES (1)"
        [] [] .done 5).dataset =
      some (.tuple [.port 1, .tuple [.atom "id", .int 5]]) :=
  ⟨rfl,
   c2_insert_reply (fun _ => 0) 1 "INSERT INTO t VALUES (1)" [] [] 5
     rfl rfl rfl⟩

/-- Claim C3, counterexample: the no-row non-INSERT reply carries the
completion code directly after the ok atom; there is no inner status
tuple. -/
theorem c3_counterexample :
    decodeTerm (sql_exec_async (fun _ => 0) 1 "CREATE TABLE t (a)"
        [] [] .done 0).dataset ≠
      some (.tuple [.port 1,
        .tuple [.atom "ok", .tuple [.atom "status", .int 101]]]) := by
  rw [show decodeTerm (sql_exec_async (fun _ => 0) 1 "CREATE TABLE t (a)"
        [] [] .done 0).dataset =
      some (.tuple [.port 1, .tuple [.atom "ok", .int 101]]) from rfl]
  simp

/-- Claim C3, amended: for every statement that returns no columns and
whose SQL text does not contain "INSERT" (case-insensitively), the
reply is the 2-tuple of the destination port and the pair of the atom
ok and the final step completion code SQLITE_DONE — the code is paired
directly with ok, with no status tag. -/
theorem c3_status_reply (fb : Nat → Nat) (p : Nat) (sql : String)
    (cols : List String) (rows : List (List Cell)) (rid : Int)
    (hc : cols = []) (hr : rows = [])
    (hins : containsInsert sql = false) :
    decodeTerm (sql_exec_async fb p sql cols rows .done rid).dataset =
      some (.tuple [.port p, .tuple [.atom "ok", .int SQLITE_DONE]]) := by
  subst hc; subst hr
  exact decode_done_status fb p sql rid hins

/-- Witness for C3 at CREATE TABLE t (a). -/
theorem c3_status_reply_witness :
    containsInsert "CREATE TABLE t (a)" = false ∧
    decodeTerm (sql_exec_async (fun _ => 0) 1 "CREATE TABLE t (a)"
        [] [] .done 0).dataset =
      some (.tuple [.port 1, .tuple [.atom "ok", .int SQLITE_DONE]]) :=
  ⟨rfl,
   c3_status_reply (fun _ => 0) 1 "CREATE TABLE t (a)" [] [] 0 rfl rfl rfl⟩

/-- Claim C4, counterexample: an integer cell holding 2^32 + 42 is
encoded as the integer slot 42 — `sqlite3_column_int` truncates to
32 bits, so the full engine value never reaches the buffer. -/
theorem c4_counterexample :
    Word.num 42 ∈ (sql_exec_async (fun _ => 0) 1 "SELECT 4294967338"
        ["c"] [[Cell.int 4294967338]] .done 0).dataset ∧
    Word.num 4294967338 ∉ (sql_exec_async (fun _ => 0) 1 "SELECT 4294967338"
        ["c"] [[Cell.int 4294967338]] .done 0).dataset := by
  constructor
  · decide
  · decide

/-- Claim C4, amended: an integer cell's encoded slot holds the engine
value reduced to a signed 32-bit integer (congruent mod 2^32, within
the 32-bit signed range) because the code reads it with
`sqlite3_column_int`; the rowid in an id reply is carried at full
precision via `sqlite3_last_insert_rowid`. -/
theorem c4_integer_precision (v : Int) (fb : Nat → Nat) (st : EncSt)
    (p : Nat) (sql : String) (rid : Int)
    (hins : containsInsert sql = true) :
    (cellWords fb st (Cell.int v)).1 = [.op .INT, .num (column_int v)] ∧
    (-2147483648 ≤ column_int v ∧ column_int v < 2147483648 ∧
      column_int v % 4294967296 = v % 4294967296) ∧
    decodeTerm (sql_exec_async fb p sql [] [] .done rid).dataset =
      some (.tuple [.port p, .tuple [.atom "id", .int rid]]) := by
  refine ⟨rfl, ?_, decode_done_insert fb p sql rid hins⟩
  have h1 : 0 ≤ v % 4294967296 := Int.emod_nonneg v (by norm_num)
  have h2 : v % 4294967296 < 4294967296 := Int.emod_lt_of_pos v (by norm_num)
  simp only [column_int]
  split_ifs with h
  · refine ⟨by omega, h, by omega⟩
  · refine ⟨by omega, by omega, by omega⟩

/-- Witness for C4 at v = 2^32 + 42 and an INSERT with rowid 2^40. -/
theorem c4_integer_precision_witness :
    containsInsert "INSERT INTO t VALUES (1)" = true ∧
    (cellWords (fun _ => 0) EncSt.init (Cell.int 4294967338)).1 =
      [.op .INT, .num 42] ∧
    decodeTerm (sql_exec_async (fun _ => 0) 1 "INSERT INTO t VALUES (1)"
        [] [] .done 1099511627776).dataset =
      some (.tuple [.port 1, .tuple [.atom "id", .int 1099511627776]]) := by
  have h := c4_integer_precision 4294967338 (fun _ => 0) EncSt.init 1
    "INSERT INTO t VALUES (1)" 1099511627776 rfl
  exact ⟨rfl, h.1, h.2.2⟩

/-- Claim C5 (confirmed): every encoded row is closed by a TUPLE header
of arity column_count, whatever the row's cells are, and a NULL cell
appends no words at all to the buffer (it contributes no value slot and
leaves the pool state unchanged). -/
theorem c5_row_arity (fb : Nat → Nat) (cc : Nat) (st : EncSt)
    (r : List Cell) :
    (∃ pre st2, rowWords fb cc st r =
        (pre ++ [Word.op .TUPLE, Word.num (cc : Int)], st2)) ∧
    ∀ st3 : EncSt, cellWords fb st3 Cell.null = ([], st3) :=
  ⟨⟨(cellsWords fb st r).1, (cellsWords fb st r).2, rowWords_eq fb cc st r⟩,
   fun _ => rfl⟩

/-- Claim C6 (confirmed): for every result set with column_count > 0
completing successfully — NULL cells included — the encoded rows region
holds exactly one row-closing TUPLE marker per step call that returned
a row, and the rows LIST marker is written with element count
row_count + 1 (the row tuples plus the nil tail): the dataset
decomposes around the rows region followed by exactly that marker. -/
theorem c6_row_count (fb : Nat → Nat) (p : Nat) (sql : String)
    (cols : List String) (rows : List (List Cell)) (rid : Int)
    (hcc : cols ≠ []) :
    List.count (Word.op .TUPLE) (rowsWords fb cols.length EncSt.init rows).1
        = rows.length ∧
    ∃ pre : List Word,
      (sql_exec_async fb p sql cols rows .done rid).dataset =
        pre ++ (rowsWords fb cols.length EncSt.init rows).1 ++
          [.op .NIL, .op .LIST, .num ((rows.length : Int) + 1),
           .op .TUPLE, .num 2, .op .NIL, .op .LIST, .num 3,
           .op .TUPLE, .num 2] := by
  refine ⟨rowsWords_count_tuple fb cols.length rows EncSt.init, ?_⟩
  refine ⟨[Word.op .PORT, .portVal p, .op .ATOM, .atom "columns"] ++
    colWords cols ++
    [.op .NIL, .op .LIST, .num ((cols.length : Int) + 1), .op .TUPLE,
     .num 2, .op .ATOM, .atom "rows"], ?_⟩
  have hpos : 0 < cols.length := List.length_pos.mpr hcc
  simp only [sql_exec_async]
  rw [if_pos hpos, if_pos hpos]
  simp [List.append_assoc]

/-- Witness for C6 at a two-row result set whose second row is NULL. -/
theorem c6_row_count_witness :
    List.count (Word.op .TUPLE)
        (rowsWords (fun _ => 0) 1 EncSt.init
          [[Cell.int 1], [Cell.null]]).1 = 2 ∧
    ∃ pre : List Word,
      (sql_exec_async (fun _ => 0) 1 "SELECT a FROM t" ["a"]
          [[Cell.int 1], [Cell.null]] .done 0).dataset =
        pre ++ (rowsWords (fun _ => 0) 1 EncSt.init
            [[Cell.int 1], [Cell.null]]).1 ++
          [.op .NIL, .op .LIST, .num 3, .op .TUPLE, .num 2, .op .NIL,
           .op .LIST, .num 3, .op .TUPLE, .num 2] :=
  c6_row_count (fun _ => 0) 1 "SELECT a FROM t" ["a"]
    [[Cell.int 1], [Cell.null]] 0 (by simp)

/-- Claim C7 (confirmed): a busy completion delivers exactly the
2-tuple of the atom error and the fixed string "SQLite3 database is
busy"; any other non-success completion delivers the 2-tuple of error
and the engine's message.  Both are ordinary delivered values — the
task returns a term rather than crashing. -/
theorem c7_busy_error_reply (fb : Nat → Nat) (p : Nat) (sql : String)
    (cols : List String) (rows : List (List Cell)) (rid : Int)
    (m : String) :
    decodeTerm (sql_exec_async fb p sql cols rows .busy rid).dataset =
      some (.tuple [.atom "error", .str "SQLite3 database is busy"]) ∧
    decodeTerm (sql_exec_async fb p sql cols rows (.err m) rid).dataset =
      some (.tuple [.atom "error", .str m]) :=
  ⟨decode_terminal_busy fb p sql cols rows rid,
   decode_terminal_err fb p sql cols rows rid m⟩

/-- Claim C8 (confirmed): when preparation fails with a non-empty
engine message, `sql_exec` immediately outputs the error 2-tuple built
by `return_error`, allocates no async command record, and holds no
statement handle (the engine leaves the out-statement NULL on failure),
so the encoder and envelope stages never run. -/
theorem c8_prepare_failure (fb : Nat → Nat) (p : Nat) (msg : String)
    (h : msg ≠ "") :
    (sql_exec fb p (.error msg)).reply =
        some (.tuple [.atom "error", .str msg]) ∧
    (sql_exec fb p (.error msg)).taskAllocated = false ∧
    (sql_exec fb p (.error msg)).statementHeld = false ∧
    0 < msg.length := by
  refine ⟨decode_errorSpec msg, rfl, rfl, ?_⟩
  rcases msg with ⟨data⟩
  cases data with
  | nil => exact absurd rfl h
  | cons c cs => simp [String.length]

/-- Witness for C8 at a concrete engine message. -/
theorem c8_prepare_failure_witness :
    ("near SELEC: syntax error" : String) ≠ "" ∧
    (sql_exec (fun _ => 0) 1 (.error "near SELEC: syntax error")).reply =
      some (.tuple [.atom "error", .str "near SELEC: syntax error"]) :=
  ⟨by decide,
   (c8_prepare_failure (fun _ => 0) 1 "near SELEC: syntax error"
     (by decide)).1⟩

/-- Claim C9, counterexample: on the busy exit path the locally built
term buffer is allocated but never released — `return_error` replaces
`async_command->dataset` with a fresh error spec and the realloc chain
built so far leaks. -/
theorem c9_counterexample :
    List.count (Ev.alloc .localBuf) (taskEvents [Cell.int 1] .busy) = 1 ∧
    List.count (Ev.free .localBuf) (taskEvents [Cell.int 1] .busy) = 0 := by
  constructor
  · decide
  · decide

/-- Claim C9, amended: on the successful exit path every allocated
resource (statement, command record, term buffer, error spec, float
pool, binary array, each binary) is released exactly once; on the busy
and step-error paths every resource except the locally built term
buffer is released exactly once, while that buffer is allocated once
and never freed; no resource is ever freed more than once on any
path. -/
theorem c9_resource_accounting (cells : List Cell) (final : StepFinal) :
    (final = .done → ∀ r : Res,
      List.count (Ev.alloc r) (taskEvents cells final) =
        List.count (Ev.free r) (taskEvents cells final)) ∧
    (final ≠ .done →
      List.count (Ev.alloc .localBuf) (taskEvents cells final) = 1 ∧
      List.count (Ev.free .localBuf) (taskEvents cells final) = 0 ∧
      ∀ r : Res, r ≠ .localBuf →
        List.count (Ev.alloc r) (taskEvents cells final) =
          List.count (Ev.free r) (taskEvents cells final)) ∧
    (∀ r : Res, List.count (Ev.free r) (taskEvents cells final) ≤ 1) := by
  refine ⟨?_, ?_, ?_⟩
  · intro hf r
    subst hf
    rw [count_alloc_taskEvents, count_free_taskEvents]
  · intro hf
    refine ⟨?_, ?_, ?_⟩
    · rw [count_alloc_taskEvents]
    · rw [count_free_taskEvents]
      cases final with
      | done => exact absurd rfl hf
      | busy => rfl
      | err m => rfl
    · intro r hr
      rw [count_alloc_taskEvents, count_free_taskEvents]
      cases r with
      | localBuf => exact absurd rfl hr
      | stmt => rfl
      | cmdRec => rfl
      | errSpec => rfl
      | floatsArr => rfl
      | binArr => rfl
      | binEntry i => rfl
  · intro r
    rw [count_free_taskEvents]
    cases r with
    | stmt => exact le_refl 1
    | cmdRec => exact le_refl 1
    | localBuf => cases final <;> simp
    | errSpec => cases final <;> simp
    | floatsArr => split_ifs <;> simp
    | binArr => split_ifs <;> simp
    | binEntry i => by_cases hi : i < nBinsC cells <;> simp [hi]

/-- Witness for C9 on a successful task with one float and one text
cell: the float pool is allocated and released exactly once. -/
theorem c9_resource_accounting_witness :
    List.count (Ev.alloc .floatsArr)
        (taskEvents [Cell.float 1, Cell.text [0]] .done) =
      List.count (Ev.free .floatsArr)
        (taskEvents [Cell.float 1, Cell.text [0]] .done) :=
  (c9_resource_accounting [Cell.float 1, Cell.text [0]] .done).1 rfl
    .floatsArr

/-- Claim C10 (code bug in the C): the float slot stores the raw
address of its pool entry at append time.  With an allocator that moves
the pool when it grows (base 100 with one entry, 200 with two), a row
with two float cells leaves the first slot holding address 100
(allocator base at size one, entry index 0), while at handoff the pool
has two entries and entry 0 lives at address 200 — the slot no longer
resolves to the pool entry storing its value, refuting the claimed
stability for the code as written (the code performs no fixup after
realloc). -/
theorem c10_float_ref_dangles :
    Word.addr 100 ∈ (sql_exec_async (fun k => 100 * k) 1 "SELECT a, b"
        ["a", "b"] [[Cell.float 7, Cell.float 8]] .done 0).dataset ∧
    (sql_exec_async (fun k => 100 * k) 1 "SELECT a, b"
        ["a", "b"] [[Cell.float 7, Cell.float 8]] .done 0).floats = [7, 8] ∧
    (fun k => 100 * k)
        (sql_exec_async (fun k => 100 * k) 1 "SELECT a, b"
          ["a", "b"] [[Cell.float 7, Cell.float 8]] .done 0).floats.length
        + 0 = 200 ∧
    (100 : Nat) ≠ 200 := by
  refine ⟨?_, ?_, ?_, ?_⟩
  · decide
  · decide
  · decide
  · decide

end SqliteDrv
